import Mathlib

/-!
Shallow embedding of `lexer.go` (package `lexer`, repository zoer/lexer): a
sequential tokenizer driven by an ordered list of matcher functions.  Byte
slices are modelled as `List Nat`; the Go `interface{}` token-name type is a
type parameter.  Go's `int` shift is modelled as `Nat`: a non-positive shift
never passes either `shift > 0` guard in `Scan`, so every negative shift is
observationally identical to `0`.
-/

namespace LexGo

/-- Result quadruple of one matcher call, Go `(bool, int, interface{}, []byte)`
in the order `(matched, shift, tokenName, tokenText)`. -/
structure MatchRes (α : Type) where
  matched : Bool
  shift : Nat
  name : α
  text : List Nat
deriving DecidableEq

/-- Go `type TokenMatcher func([]byte) (bool, int, interface{}, []byte)`
(line 30). -/
def TokenMatcher (α : Type) : Type := List Nat → MatchRes α

/-- Go `type Token struct { Name interface{}; Text []byte }` (lines 24-27). -/
structure Token (α : Type) where
  Name : α
  Text : List Nat
deriving DecidableEq

/-- Contents of the Go `Error` field.  `Scan` only ever stores
`errors.New(fmt.Sprintf(cantMatchErrorMessage, string(l.currentInput)))`
(line 94), whose message is the fixed template
`Can't match any existed matchers for the following text: %q` (lines 10-12)
applied to the unmatched remainder; the error value is therefore modelled as
carrying exactly those remainder bytes. -/
inductive GoError where
  | noMatch (remainder : List Nat) : GoError
deriving DecidableEq

/-- Go `type Lexer struct` (lines 15-21). -/
structure Lexer (α : Type) where
  Input : List Nat
  Matchers : List (TokenMatcher α)
  currentInput : List Nat
  currentToken : Option (Token α)
  Error : Option GoError

/-- Go `Reset` (lines 150-154): clear the error, restore the working input
from `Input`, clear the current token. -/
def Lexer.Reset {α : Type} (l : Lexer α) : Lexer α :=
  { l with Error := none, currentInput := l.Input, currentToken := none }

/-- Go `NewLexer` (lines 33-37): a `Lexer` with zero-valued fields except
`Input`, followed by `Reset`. -/
def NewLexer {α : Type} (text : List Nat) : Lexer α :=
  Lexer.Reset { Input := text, Matchers := [], currentInput := [],
                currentToken := none, Error := none }

/-- Go `AddMatcher` (lines 64-66): append to the end of the matcher list. -/
def Lexer.AddMatcher {α : Type} (l : Lexer α) (fn : TokenMatcher α) : Lexer α :=
  { l with Matchers := l.Matchers ++ [fn] }

/-- Go `NewLexerWithMatchers` (lines 46-52): `NewLexer`, then `AddMatcher`
for each supplied matcher in order. -/
def NewLexerWithMatchers {α : Type} (text : List Nat) (ms : List (TokenMatcher α)) : Lexer α :=
  ms.foldl (fun l m => l.AddMatcher m) (NewLexer text)

/-- Go `NewToken` (lines 55-57). -/
def NewToken {α : Type} (name : α) (text : List Nat) : Token α :=
  { Name := name, Text := text }

/-- Go `Token()` accessor (lines 101-103). -/
def Lexer.Token {α : Type} (l : Lexer α) : Option (Token α) :=
  l.currentToken

/-- Outcome of the matcher loop of Go `Scan` (lines 76-85).  `oob` models the
panic of the slice expression `l.currentInput[shift:]` (line 80) when `shift`
exceeds the remaining length; `hit` records the quadruple returned by the
first matcher with `matched || shift > 0`; `miss` means every matcher
returned `matched = false` and `shift = 0` (in particular when the matcher
list is empty). -/
inductive LoopRes (α : Type) where
  | oob : LoopRes α
  | hit (matched : Bool) (shift : Nat) (name : α) (text : List Nat) : LoopRes α
  | miss : LoopRes α
deriving DecidableEq

/-- The matcher loop of Go `Scan` (lines 76-85): invoke matchers in list
order on the current remaining input; when one reports `shift > 0` the slice
`l.currentInput[shift:]` is taken (bounds-checked), and the loop breaks on
`matched || shift > 0`. -/
def scanLoop {α : Type} (inp : List Nat) : List (TokenMatcher α) → LoopRes α
  | [] => LoopRes.miss
  | fn :: rest =>
    let r := fn inp
    if 0 < r.shift then
      if r.shift ≤ inp.length then LoopRes.hit r.matched r.shift r.name r.text
      else LoopRes.oob
    else if r.matched then LoopRes.hit r.matched r.shift r.name r.text
    else scanLoop inp rest

/-- Number of matcher invocations the loop of Go `Scan` performs on `inp`:
every matcher up to and including the first applicable one, or the whole
list when none applies. -/
def scanCalls {α : Type} (inp : List Nat) : List (TokenMatcher α) → Nat
  | [] => 0
  | fn :: rest =>
    let r := fn inp
    if r.matched || 0 < r.shift then 1 else 1 + scanCalls inp rest

/-- Bounds carried by a `hit` outcome of the loop: the shift fits the
remaining input, and a `hit` with `matched = false` broke the loop through
the `shift > 0` test, so its shift is positive. -/
theorem scanLoop_hit_shift {α : Type} {inp : List Nat} {ms : List (TokenMatcher α)}
    {b : Bool} {s : Nat} {nm : α} {t : List Nat}
    (h : scanLoop inp ms = LoopRes.hit b s nm t) :
    s ≤ inp.length ∧ (b = false → 0 < s) := by
  induction ms with
  | nil => simp [scanLoop] at h
  | cons fn rest ih =>
    simp only [scanLoop] at h
    split at h
    · split at h
      · cases h
        exact ⟨by assumption, fun _ => by assumption⟩
      · cases h
    · split at h
      · cases h
        refine ⟨by omega, fun hb => ?_⟩
        rename_i hsh hm
        rw [hb] at hm
        cases hm
      · exact ih h

/-- The matcher that produced a `hit` outcome is a member of the list and
returned exactly the recorded quadruple. -/
theorem scanLoop_hit_exists {α : Type} {inp : List Nat} {ms : List (TokenMatcher α)}
    {b : Bool} {s : Nat} {nm : α} {t : List Nat}
    (h : scanLoop inp ms = LoopRes.hit b s nm t) :
    ∃ m ∈ ms, m inp = ⟨b, s, nm, t⟩ := by
  induction ms with
  | nil => simp [scanLoop] at h
  | cons fn rest ih =>
    simp only [scanLoop] at h
    split at h
    · split at h
      · cases h
        exact ⟨fn, List.mem_cons_self _ _, rfl⟩
      · cases h
    · split at h
      · cases h
        exact ⟨fn, List.mem_cons_self _ _, rfl⟩
      · obtain ⟨m, hm, hr⟩ := ih h
        exact ⟨m, List.mem_cons_of_mem _ hm, hr⟩

/-- Go `Scan` (lines 69-98): clear the current token, run the matcher loop,
then either emit a token (`matched`), recurse after a pure skip
(`shift > 0`, nothing matched), or stop, recording a `noMatch` error exactly
when input remains.  The `none` result models the Go slice-bounds panic at
line 80. -/
def Lexer.Scan {α : Type} (l : Lexer α) : Option (Bool × Lexer α) :=
  match h : scanLoop l.currentInput l.Matchers with
  | LoopRes.oob => none
  | LoopRes.hit true shift name text =>
      some (true, { l with currentInput := l.currentInput.drop shift,
                           currentToken := some (NewToken name text) })
  | LoopRes.hit false shift _ _ =>
      Lexer.Scan { l with currentInput := l.currentInput.drop shift,
                          currentToken := none }
  | LoopRes.miss =>
      if l.currentInput = [] then
        some (false, { l with currentToken := none })
      else
        some (false, { l with currentToken := none,
                              Error := some (GoError.noMatch l.currentInput) })
termination_by l.currentInput.length
decreasing_by
  have hs := scanLoop_hit_shift h
  have h1 := hs.2 rfl
  simp only [List.length_drop]
  omega

/-- Unfolding `Scan` when the loop emits a token. -/
theorem scan_tok_eq {α : Type} {l : Lexer α} {shift : Nat} {nm : α} {t : List Nat}
    (h : scanLoop l.currentInput l.Matchers = LoopRes.hit true shift nm t) :
    Lexer.Scan l =
      some (true, { l with currentInput := l.currentInput.drop shift,
                           currentToken := some (NewToken nm t) }) := by
  rw [Lexer.Scan.eq_def]
  split
  · rename_i heq; rw [h] at heq; cases heq
  · rename_i s n tx heq
    rw [h] at heq
    simp only [LoopRes.hit.injEq] at heq
    obtain ⟨-, h2, h3, h4⟩ := heq
    rw [h2, h3, h4]
  · rename_i s n tx heq; rw [h] at heq; simp at heq
  · rename_i heq; rw [h] at heq; cases heq

/-- Unfolding `Scan` when the loop reports a pure skip: the call goes on
scanning, from the advanced cursor, within the same external call. -/
theorem scan_skip_eq {α : Type} {l : Lexer α} {shift : Nat} {nm : α} {t : List Nat}
    (h : scanLoop l.currentInput l.Matchers = LoopRes.hit false shift nm t) :
    Lexer.Scan l =
      Lexer.Scan { l with currentInput := l.currentInput.drop shift,
                          currentToken := none } := by
  rw [Lexer.Scan.eq_def]
  split
  · rename_i heq; rw [h] at heq; cases heq
  · rename_i s n tx heq; rw [h] at heq; simp at heq
  · rename_i s n tx heq
    rw [h] at heq
    simp only [LoopRes.hit.injEq] at heq
    obtain ⟨-, h2, -, -⟩ := heq
    rw [h2]
  · rename_i heq; rw [h] at heq; cases heq

/-- Unfolding `Scan` when no matcher applies. -/
theorem scan_miss_eq {α : Type} {l : Lexer α}
    (h : scanLoop l.currentInput l.Matchers = LoopRes.miss) :
    Lexer.Scan l =
      (if l.currentInput = [] then some (false, { l with currentToken := none })
       else some (false, { l with currentToken := none,
                                  Error := some (GoError.noMatch l.currentInput) })) := by
  rw [Lexer.Scan.eq_def]
  split
  · rename_i heq; rw [h] at heq; cases heq
  · rename_i heq; rw [h] at heq; cases heq
  · rename_i heq; rw [h] at heq; cases heq
  · rfl

/-- Unfolding `Scan` at the modelled slice-bounds panic. -/
theorem scan_oob_eq {α : Type} {l : Lexer α}
    (h : scanLoop l.currentInput l.Matchers = LoopRes.oob) :
    Lexer.Scan l = none := by
  rw [Lexer.Scan.eq_def]
  split
  · rfl
  · rename_i heq; rw [h] at heq; cases heq
  · rename_i heq; rw [h] at heq; cases heq
  · rename_i heq; rw [h] at heq; cases heq

/-- Master case analysis of one non-panicking `Scan` call: matcher list and
original input are untouched, the remaining input only shrinks (to a
suffix), a `true` return preserves the error slot and stores a token, and a
`false` return stores no token and either left the (empty) input and the
error slot untouched, or hit a non-empty remainder missed by every matcher
and stored the `noMatch` error for it. -/
theorem scan_some_spec {α : Type} :
    ∀ (n : Nat) (l : Lexer α), l.currentInput.length ≤ n →
      ∀ (b : Bool) (l' : Lexer α), Lexer.Scan l = some (b, l') →
        l'.Matchers = l.Matchers ∧ l'.Input = l.Input ∧
        l'.currentInput <:+ l.currentInput ∧
        (b = true → l'.Error = l.Error ∧ ∃ t, l'.currentToken = some t) ∧
        (b = false → l'.currentToken = none ∧
          ((l'.currentInput = [] ∧ l'.Error = l.Error) ∨
           (l'.currentInput ≠ [] ∧
            scanLoop l'.currentInput l.Matchers = LoopRes.miss ∧
            l'.Error = some (GoError.noMatch l'.currentInput)))) := by
  intro n
  induction n with
  | zero =>
    intro l hlen b l' h
    rw [Lexer.Scan.eq_def] at h
    split at h
    · cases h
    · rename_i heq
      simp only [Option.some.injEq, Prod.mk.injEq] at h
      obtain ⟨hb, hl⟩ := h
      subst hb
      subst hl
      refine ⟨rfl, rfl, List.drop_suffix _ _, fun _ => ⟨rfl, _, rfl⟩, fun hb => ?_⟩
      simp at hb
    · rename_i heq
      have hs := scanLoop_hit_shift heq
      have := hs.2 rfl
      omega
    · split at h <;>
        · rename_i heq hemp
          simp only [Option.some.injEq, Prod.mk.injEq] at h
          obtain ⟨hb, hl⟩ := h
          subst hb
          subst hl
          refine ⟨rfl, rfl, List.suffix_refl _, fun hb => by simp at hb, fun _ => ⟨rfl, ?_⟩⟩
          first
          | exact Or.inl ⟨hemp, rfl⟩
          | exact Or.inr ⟨hemp, heq, rfl⟩
  | succ n ih =>
    intro l hlen b l' h
    rw [Lexer.Scan.eq_def] at h
    split at h
    · cases h
    · rename_i heq
      simp only [Option.some.injEq, Prod.mk.injEq] at h
      obtain ⟨hb, hl⟩ := h
      subst hb
      subst hl
      refine ⟨rfl, rfl, List.drop_suffix _ _, fun _ => ⟨rfl, _, rfl⟩, fun hb => ?_⟩
      simp at hb
    · rename_i shift nm t heq
      have hs := scanLoop_hit_shift heq
      have h1 := hs.2 rfl
      have hlen' :
          ({ l with currentInput := l.currentInput.drop shift,
                    currentToken := none } : Lexer α).currentInput.length ≤ n := by
        simp only [List.length_drop]
        omega
      obtain ⟨hm, hi, hsuf, htrue, hfalse⟩ := ih _ hlen' b l' h
      exact ⟨hm, hi, hsuf.trans (List.drop_suffix _ _), htrue, hfalse⟩
    · split at h <;>
        · rename_i heq hemp
          simp only [Option.some.injEq, Prod.mk.injEq] at h
          obtain ⟨hb, hl⟩ := h
          subst hb
          subst hl
          refine ⟨rfl, rfl, List.suffix_refl _, fun hb => by simp at hb, fun _ => ⟨rfl, ?_⟩⟩
          first
          | exact Or.inl ⟨hemp, rfl⟩
          | exact Or.inr ⟨hemp, heq, rfl⟩

/-- Folding `AddMatcher` appends the folded matchers, in order, to the end
of the matcher list and changes nothing else. -/
theorem foldl_addMatcher {α : Type} (ms : List (TokenMatcher α)) (l : Lexer α) :
    ms.foldl (fun l m => l.AddMatcher m) l = { l with Matchers := l.Matchers ++ ms } := by
  induction ms generalizing l with
  | nil => simp
  | cons m rest ih =>
    rw [List.foldl_cons, ih]
    simp [Lexer.AddMatcher]

/-- Field contents of a freshly constructed `Lexer`. -/
theorem newWith_eq {α : Type} (text : List Nat) (ms : List (TokenMatcher α)) :
    NewLexerWithMatchers text ms =
      { Input := text, Matchers := ms, currentInput := text,
        currentToken := none, Error := none } := by
  rw [NewLexerWithMatchers, foldl_addMatcher]
  simp [NewLexer, Lexer.Reset]

/-- C7: for every Scanner and every prior sequence of scan steps, `Reset`
restores the original starting state — the remaining input equals the full
original input byte-for-byte, the current token is absent, the error is
absent, and `Input` and the matcher list are untouched — and `Reset` is
idempotent: resetting twice yields the same state as resetting once. -/
theorem c7_reset_restores {α : Type} (l : Lexer α) :
    (l.Reset).currentInput = l.Input ∧ (l.Reset).currentToken = none ∧
    (l.Reset).Error = none ∧ (l.Reset).Input = l.Input ∧
    (l.Reset).Matchers = l.Matchers ∧ (l.Reset).Reset = l.Reset :=
  ⟨rfl, rfl, rfl, rfl, rfl, rfl⟩

/-- C3: a scan step is decided by the first matcher in list order that is
applicable (`matched = true` or `shift > 0`): the loop's outcome equals the
outcome of running that matcher alone, so matchers after it — whatever they
are and however much they would consume — are not consulted. -/
theorem c3_first_applicable_wins {α : Type} (inp : List Nat)
    (ms₁ : List (TokenMatcher α)) (m : TokenMatcher α) (ms₂ : List (TokenMatcher α))
    (hinap : ∀ m' ∈ ms₁, (m' inp).matched = false ∧ (m' inp).shift = 0)
    (happ : (m inp).matched = true ∨ 0 < (m inp).shift) :
    scanLoop inp (ms₁ ++ m :: ms₂) = scanLoop inp [m] := by
  induction ms₁ with
  | nil =>
    simp only [List.nil_append]
    by_cases hs : 0 < (m inp).shift
    · simp [scanLoop, hs]
    · have hm : (m inp).matched = true := happ.resolve_right hs
      simp [scanLoop, hs, hm]
  | cons m' ms₁ ih =>
    have h1 := hinap m' (List.mem_cons_self _ _)
    have hrest : ∀ x ∈ ms₁, (x inp).matched = false ∧ (x inp).shift = 0 :=
      fun x hx => hinap x (List.mem_cons_of_mem _ hx)
    simp only [List.cons_append, scanLoop, h1.1, h1.2]
    simpa using ih hrest

def c3inp : List Nat := [97, 98]

def c3m1 : TokenMatcher (Option Nat) := fun _ => ⟨false, 0, none, []⟩

def c3m : TokenMatcher (Option Nat) := fun i =>
  match i with
  | 97 :: _ => ⟨true, 1, some 1, [97]⟩
  | _ => ⟨false, 0, none, []⟩

def c3m2 : TokenMatcher (Option Nat) := fun i => ⟨true, 2, some 2, i.take 2⟩

/-- C3 witness: with a non-applicable matcher first, `c3m` (consuming one
byte) next and `c3m2` (which would consume two bytes) last, the step is
decided by `c3m` alone. -/
theorem c3_witness :
    scanLoop c3inp ([c3m1] ++ c3m :: [c3m2]) = scanLoop c3inp [c3m] ∧
    scanLoop c3inp [c3m] = LoopRes.hit true 1 (some 1) [97] := by
  constructor
  · refine c3_first_applicable_wins c3inp [c3m1] c3m [c3m2] ?_ (Or.inl rfl)
    intro m' hm'
    simp only [List.mem_singleton] at hm'
    subst hm'
    exact ⟨rfl, rfl⟩
  · rfl

def c4m : TokenMatcher (Option Nat) := fun i =>
  match i with
  | 97 :: _ => ⟨true, 1, some 1, [97]⟩
  | _ => ⟨false, 0, none, []⟩

def c4lex : Lexer (Option Nat) := NewLexerWithMatchers [97] [c4m]

def c4post : Lexer (Option Nat) :=
  { Input := [97], Matchers := [c4m], currentInput := [],
    currentToken := some { Name := some 1, Text := [97] }, Error := none }

/-- C4 counterexample: on input `[97]` with a matcher that tokenizes the
whole input, `Scan` returns `true` while the call ends with the remaining
input empty (the claim's own reading of "Exhausted"), so "`Scan` returns
false exactly when the call ends in the Exhausted state (remaining input
empty) or the Stuck state" is false as stated: the right-to-left direction
of the "exactly" fails. -/
theorem c4_counterexample :
    ¬ (∀ (b : Bool) (l' : Lexer (Option Nat)), Lexer.Scan c4lex = some (b, l') →
        (b = false ↔
          (l'.currentInput = [] ∨
           (l'.currentInput ≠ [] ∧
            scanLoop l'.currentInput c4lex.Matchers = LoopRes.miss)))) := by
  intro hcl
  have hlex : c4lex =
      { Input := [97], Matchers := [c4m], currentInput := [97],
        currentToken := none, Error := none } := newWith_eq _ _
  have hscan : Lexer.Scan c4lex = some (true, c4post) := by
    rw [hlex, Lexer.Scan.eq_def]
    rfl
  have h2 := (hcl true c4post hscan).mpr (Or.inl rfl)
  simp at h2

/-- C4 amended: `Scan` returns `false` exactly when no token was produced by
the call (the current token is absent); whenever it returns `false`,
`Token()` is absent — including when the previous call had produced a token
— and the call ended either with empty remaining input (Exhausted) or with a
non-empty remainder on which no matcher is applicable (Stuck).  A call that
returns `true` may also leave the remaining input empty, so ending with
empty input does not by itself force a `false` return. -/
theorem c4_amended {α : Type} (l : Lexer α) (b : Bool) (l' : Lexer α)
    (h : Lexer.Scan l = some (b, l')) :
    (b = false ↔ l'.currentToken = none) ∧
    (b = false → l'.Token = none) ∧
    (b = false →
      (l'.currentInput = [] ∨
       (l'.currentInput ≠ [] ∧ scanLoop l'.currentInput l.Matchers = LoopRes.miss))) := by
  obtain ⟨-, -, -, htrue, hfalse⟩ :=
    scan_some_spec l.currentInput.length l (le_refl _) b l' h
  refine ⟨⟨fun hb => (hfalse hb).1, fun ht => ?_⟩, fun hb => (hfalse hb).1, fun hb => ?_⟩
  · cases b with
    | false => rfl
    | true =>
      obtain ⟨-, t, hsome⟩ := htrue rfl
      rw [ht] at hsome
      cases hsome
  · rcases (hfalse hb).2 with ⟨he, -⟩ | ⟨hne, hm, -⟩
    · exact Or.inl he
    · exact Or.inr ⟨hne, hm⟩

/-- C4 witness: scanning the empty input with no matchers returns `false`,
and the amended equivalence instantiates there. -/
theorem c4_witness :
    Lexer.Scan (NewLexer [] : Lexer (Option Nat)) = some (false, NewLexer []) ∧
    ((false = false) ↔ ((NewLexer [] : Lexer (Option Nat)).currentToken = none)) := by
  have hscan : Lexer.Scan (NewLexer [] : Lexer (Option Nat)) = some (false, NewLexer []) := by
    rw [Lexer.Scan.eq_def]
    rfl
  exact ⟨hscan, (c4_amended _ false _ hscan).1⟩

/-- States reachable through the public operations when the matcher list is
fixed at construction time (the spec's configuration-time discipline, §3):
`NewLexerWithMatchers` covers `construct` plus configuration-time
`addMatcher` calls, then any interleaving of `Scan` and `Reset`.  The
boolean flag records whether, since the last reset (or construction), some
scan step has returned `false` with non-empty unconsumed input remaining —
the claim's notion of Stuck. -/
inductive ReachableS {α : Type} : Lexer α → Bool → Prop where
  | new (text : List Nat) (ms : List (TokenMatcher α)) :
      ReachableS (NewLexerWithMatchers text ms) false
  | step {l : Lexer α} {f b : Bool} {l' : Lexer α} :
      ReachableS l f → Lexer.Scan l = some (b, l') →
      ReachableS l' (f || (!b && !(l'.currentInput.isEmpty)))
  | reset {l : Lexer α} {f : Bool} :
      ReachableS l f → ReachableS l.Reset false

/-- Invariant of reachable states: a clear flag means a clear error slot,
and a set flag means the state is positionally stuck — non-empty remaining
input missed by every matcher, no token, and the `noMatch` error for
exactly that remainder. -/
theorem reachable_inv {α : Type} {l : Lexer α} {f : Bool} (h : ReachableS l f) :
    (f = false → l.Error = none) ∧
    (f = true → l.currentInput ≠ [] ∧
      scanLoop l.currentInput l.Matchers = LoopRes.miss ∧
      l.currentToken = none ∧ l.Error = some (GoError.noMatch l.currentInput)) := by
  induction h with
  | new text ms =>
    refine ⟨fun _ => ?_, fun hf => by cases hf⟩
    rw [newWith_eq]
  | reset hr ih =>
    exact ⟨fun _ => rfl, fun hf => by cases hf⟩
  | step hr hscan ih =>
    rename_i l f b l'
    obtain ⟨hm, hi, hsuf, htrue, hfalse⟩ :=
      scan_some_spec l.currentInput.length l (le_refl _) b l' hscan
    cases b with
    | true =>
      cases f with
      | true =>
        obtain ⟨hne, hmiss, -, -⟩ := ih.2 rfl
        rw [scan_miss_eq hmiss, if_neg hne] at hscan
        simp at hscan
      | false =>
        have hErr : l'.Error = l.Error := (htrue rfl).1
        refine ⟨fun _ => ?_, fun hcontra => by simp at hcontra⟩
        rw [hErr]
        exact ih.1 rfl
    | false =>
      obtain ⟨htok, hdisj⟩ := hfalse rfl
      cases f with
      | true =>
        obtain ⟨hne, hmiss, htok0, herr⟩ := ih.2 rfl
        rw [scan_miss_eq hmiss, if_neg hne] at hscan
        simp only [Option.some.injEq, Prod.mk.injEq] at hscan
        obtain ⟨-, hl'⟩ := hscan
        subst hl'
        refine ⟨fun hcontra => by simp at hcontra, fun _ => ⟨hne, hmiss, rfl, rfl⟩⟩
      | false =>
        have hErrPre : l.Error = none := ih.1 rfl
        rcases hdisj with ⟨hemp, herr⟩ | ⟨hne, hmiss, herr⟩
        · refine ⟨fun _ => ?_, fun hcontra => ?_⟩
          · rw [herr, hErrPre]
          · rw [hemp] at hcontra
            simp at hcontra
        · refine ⟨fun hcontra => ?_, fun _ => ⟨hne, ?_, htok, herr⟩⟩
          · simp at hcontra
            exact absurd hcontra hne
          · rw [hm]
            exact hmiss

def c2m : TokenMatcher (Option Nat) := fun i =>
  match i with
  | 97 :: _ => ⟨true, 1, some 1, [97]⟩
  | _ => ⟨false, 0, none, []⟩

/-- The state `Scan` reaches from `NewLexer [97]` with no matchers: stuck,
with the `noMatch` error recorded (verified by the first conjunct of
`c2_counterexample`). -/
def c2stuck : Lexer (Option Nat) :=
  { Input := [97], Matchers := [], currentInput := [97], currentToken := none,
    Error := some (GoError.noMatch [97]) }

def c2post : Lexer (Option Nat) :=
  { Input := [97], Matchers := [c2m], currentInput := [],
    currentToken := some { Name := some 1, Text := [97] },
    Error := some (GoError.noMatch [97]) }

/-- C2 counterexample: the state reached by `construct([97])`, one (stuck)
`Scan`, then `AddMatcher` of a matcher that tokenizes `[97]`, is reachable
through the claim's public operations; from it `Scan` returns `true` yet
leaves the old error set (the code never clears `Error` outside `Reset`),
so the claimed invariant — error non-absent iff Stuck, and error and
current token mutually exclusive after a successful scan — is false. -/
theorem c2_counterexample :
    Lexer.Scan (NewLexer [97] : Lexer (Option Nat)) = some (false, c2stuck) ∧
    ¬ (∀ (b : Bool) (l' : Lexer (Option Nat)),
        Lexer.Scan (c2stuck.AddMatcher c2m) = some (b, l') →
        b = true → l'.Error = none) := by
  constructor
  · rw [Lexer.Scan.eq_def]
    rfl
  · intro hcl
    have hscan : Lexer.Scan (c2stuck.AddMatcher c2m) = some (true, c2post) := by
      rw [Lexer.Scan.eq_def]
      rfl
    have h2 := hcl true c2post hscan rfl
    simp [c2post] at h2

/-- C2 amended: in every state reachable through construct, configuration-time
addMatcher, scan and reset — with no matcher added after scanning has begun —
`currentError()` is non-absent iff some scan step since the last reset
returned `false` with non-empty unconsumed input remaining (the flag of
`ReachableS`), the error and the current token are never both set, a `Scan()`
that returns `true` from such a state leaves no error set, and a `Scan()`
that returns `false` leaves no token set.  (Adding a matcher after a stuck
scan can make a later successful `Scan` keep the stale error, which is what
`c2_counterexample` exhibits; the code clears `Error` only in `Reset`.) -/
theorem c2_amended {α : Type} (l : Lexer α) (f : Bool) (h : ReachableS l f) :
    (l.Error ≠ none ↔ f = true) ∧
    ¬(l.Error ≠ none ∧ l.currentToken ≠ none) ∧
    (∀ (l' : Lexer α), Lexer.Scan l = some (true, l') → l'.Error = none) ∧
    (∀ (b : Bool) (l' : Lexer α), Lexer.Scan l = some (b, l') → b = false →
      l'.currentToken = none) := by
  have inv := reachable_inv h
  refine ⟨⟨fun hne => ?_, fun hf => ?_⟩, ?_, ?_, ?_⟩
  · cases f with
    | false => exact absurd (inv.1 rfl) hne
    | true => rfl
  · rw [(inv.2 hf).2.2.2]
    simp
  · rintro ⟨hne, htok⟩
    cases f with
    | false => exact absurd (inv.1 rfl) hne
    | true => exact htok (inv.2 rfl).2.2.1
  · intro l' hscan
    cases f with
    | false =>
      obtain ⟨-, -, -, htrue, -⟩ :=
        scan_some_spec l.currentInput.length l (le_refl _) true l' hscan
      rw [(htrue rfl).1]
      exact inv.1 rfl
    | true =>
      obtain ⟨hne, hmiss, -, -⟩ := inv.2 rfl
      rw [scan_miss_eq hmiss, if_neg hne] at hscan
      simp at hscan
  · intro b l' hscan hb
    subst hb
    obtain ⟨-, -, -, -, hfalse⟩ :=
      scan_some_spec l.currentInput.length l (le_refl _) false l' hscan
    exact (hfalse rfl).1

/-- C2 witness: the amended invariant instantiated at a freshly constructed
Scanner (empty input, no matchers), whose error slot is empty and whose flag
is clear. -/
theorem c2_witness :
    ((NewLexerWithMatchers [] ([] : List (TokenMatcher (Option Nat)))).Error ≠ none ↔
      false = true) ∧
    ¬((NewLexerWithMatchers [] ([] : List (TokenMatcher (Option Nat)))).Error ≠ none ∧
      (NewLexerWithMatchers [] ([] : List (TokenMatcher (Option Nat)))).currentToken ≠ none) := by
  have hc := c2_amended _ false (ReachableS.new [] ([] : List (TokenMatcher (Option Nat))))
  exact ⟨hc.1, hc.2.1⟩

def c6post : Lexer (Option Nat) :=
  { Input := [97], Matchers := [], currentInput := [97], currentToken := none,
    Error := some (GoError.noMatch [97]) }

/-- C6: whenever a `Scan` call ends with no applicable matcher and a
non-empty remaining input (it returned `false` with input left), exactly the
`noMatch` error embedding the literal unmatched remainder is set; a later
`Scan` never clears a set error, `AddMatcher` leaves the error slot
untouched, and only `Reset` clears it. -/
theorem c6_no_match_error :
    (∀ (α : Type) (l : Lexer α) (b : Bool) (l' : Lexer α),
        Lexer.Scan l = some (b, l') → b = false → l'.currentInput ≠ [] →
        l'.Error = some (GoError.noMatch l'.currentInput)) ∧
    (∀ (α : Type) (l : Lexer α) (b : Bool) (l' : Lexer α),
        Lexer.Scan l = some (b, l') → l.Error ≠ none → l'.Error ≠ none) ∧
    (∀ (α : Type) (l : Lexer α) (m : TokenMatcher α),
        (l.AddMatcher m).Error = l.Error) ∧
    (∀ (α : Type) (l : Lexer α), (l.Reset).Error = none) := by
  refine ⟨?_, ?_, fun _ _ _ => rfl, fun _ _ => rfl⟩
  · intro α l b l' hscan hb hne
    subst hb
    obtain ⟨-, -, -, -, hfalse⟩ :=
      scan_some_spec l.currentInput.length l (le_refl _) false l' hscan
    rcases (hfalse rfl).2 with ⟨hemp, -⟩ | ⟨-, -, herr⟩
    · exact absurd hemp hne
    · exact herr
  · intro α l b l' hscan hpre
    obtain ⟨-, -, -, htrue, hfalse⟩ :=
      scan_some_spec l.currentInput.length l (le_refl _) b l' hscan
    cases b with
    | true =>
      rw [(htrue rfl).1]
      exact hpre
    | false =>
      rcases (hfalse rfl).2 with ⟨-, herr⟩ | ⟨-, -, herr⟩
      · rw [herr]
        exact hpre
      · rw [herr]
        simp


/-- C6 witness: scanning `[97]` with no matchers gets stuck and stores the
`noMatch` error carrying the remainder `[97]`. -/
theorem c6_witness :
    Lexer.Scan (NewLexer [97] : Lexer (Option Nat)) = some (false, c6post) ∧
    c6post.Error = some (GoError.noMatch [97]) := by
  have hscan : Lexer.Scan (NewLexer [97] : Lexer (Option Nat)) = some (false, c6post) := by
    rw [Lexer.Scan.eq_def]
    rfl
  refine ⟨hscan, ?_⟩
  have h := c6_no_match_error.1 (Option Nat) _ false _ hscan rfl (by simp [c6post])
  simpa [c6post] using h

/-- A list of matchers all inapplicable on `inp` makes the loop miss. -/
theorem scanLoop_miss_of_inapplicable {α : Type} (inp : List Nat)
    (ms : List (TokenMatcher α))
    (h : ∀ m ∈ ms, (m inp).matched = false ∧ (m inp).shift = 0) :
    scanLoop inp ms = LoopRes.miss := by
  induction ms with
  | nil => rfl
  | cons fn rest ih =>
    have h1 := h fn (List.mem_cons_self _ _)
    have hrest := fun x hx => h x (List.mem_cons_of_mem _ hx)
    simp only [scanLoop, h1.1, h1.2]
    simpa using ih hrest

def c9m : TokenMatcher (Option Nat) := fun _ => ⟨true, 0, some 1, []⟩

def c9post : Lexer (Option Nat) :=
  { Input := [], Matchers := [c9m], currentInput := [],
    currentToken := some { Name := some 1, Text := [] }, Error := none }

/-- C9 counterexample: a matcher may report `matched = true` with
`shift = 0` on empty input (a zero-width match, e.g. Go
`TokenizeIfMatches("a*", ...)`), and then the first `Scan` of a Scanner
constructed with empty input returns `true`, not `false`; so the claim is
false for an arbitrary matcher list. -/
theorem c9_counterexample :
    ¬ (∀ (b : Bool) (l' : Lexer (Option Nat)),
        Lexer.Scan (NewLexerWithMatchers [] [c9m]) = some (b, l') → b = false) := by
  intro hcl
  have hlex : NewLexerWithMatchers [] [c9m] =
      { Input := [], Matchers := [c9m], currentInput := [],
        currentToken := none, Error := none } := newWith_eq _ _
  have hscan : Lexer.Scan (NewLexerWithMatchers [] [c9m]) = some (true, c9post) := by
    rw [hlex, Lexer.Scan.eq_def]
    rfl
  simpa using hcl true c9post hscan

/-- C9 amended: for every Scanner constructed with empty input and a matcher
list in which every matcher reports inapplicable (`matched = false`,
`shift = 0`) on empty input, the first `Scan` returns `false`, sets no
error, and leaves the current token absent (the state is unchanged). -/
theorem c9_amended {α : Type} (ms : List (TokenMatcher α))
    (hms : ∀ m ∈ ms, (m []).matched = false ∧ (m []).shift = 0) :
    Lexer.Scan (NewLexerWithMatchers [] ms) =
      some (false, NewLexerWithMatchers [] ms) ∧
    (NewLexerWithMatchers [] ms).Error = none ∧
    (NewLexerWithMatchers [] ms).currentToken = none ∧
    (NewLexerWithMatchers [] ms).Token = none := by
  rw [newWith_eq]
  have hmiss : scanLoop ([] : List Nat) ms = LoopRes.miss :=
    scanLoop_miss_of_inapplicable [] ms hms
  refine ⟨?_, rfl, rfl, rfl⟩
  rw [scan_miss_eq hmiss]
  rfl

def c9wm : TokenMatcher (Option Nat) := fun _ => ⟨false, 0, none, []⟩

/-- C9 witness: the amended statement at the concrete matcher list
`[c9wm]`, every element of which is inapplicable on empty input. -/
theorem c9_witness :
    Lexer.Scan (NewLexerWithMatchers [] [c9wm]) =
      some (false, NewLexerWithMatchers [] [c9wm]) ∧
    (NewLexerWithMatchers [] [c9wm]).Error = none := by
  have hc := c9_amended [c9wm] ?hms
  case hms =>
    intro m hm
    simp only [List.mem_singleton] at hm
    subst hm
    exact ⟨rfl, rfl⟩
  exact ⟨hc.1, hc.2.1⟩

/-- Under a bound on every matcher's shift at `inp` the loop cannot report
the out-of-bounds panic. -/
theorem scanLoop_ne_oob {α : Type} {inp : List Nat} {ms : List (TokenMatcher α)}
    (hpre : ∀ m ∈ ms, (m inp).shift ≤ inp.length) :
    scanLoop inp ms ≠ LoopRes.oob := by
  induction ms with
  | nil => simp [scanLoop]
  | cons fn rest ih =>
    have h1 := hpre fn (List.mem_cons_self _ _)
    have hrest := fun x hx => hpre x (List.mem_cons_of_mem _ hx)
    simp only [scanLoop]
    by_cases hs : 0 < (fn inp).shift
    · rw [if_pos hs, if_pos h1]
      simp
    · rw [if_neg hs]
      by_cases hm : (fn inp).matched = true
      · rw [if_pos hm]
        simp
      · rw [if_neg hm]
        exact ih hrest

/-- Auxiliary induction for C10: when every matcher's shift always fits its
input, `Scan` never reaches the out-of-bounds slice. -/
theorem scan_isSome_aux {α : Type} :
    ∀ (n : Nat) (l : Lexer α), l.currentInput.length ≤ n →
      (∀ m ∈ l.Matchers, ∀ inp : List Nat, (m inp).shift ≤ inp.length) →
      (Lexer.Scan l).isSome = true := by
  intro n
  induction n with
  | zero =>
    intro l hlen hpre
    rw [Lexer.Scan.eq_def]
    split
    · rename_i heq
      exact absurd heq (scanLoop_ne_oob (fun m hm => hpre m hm l.currentInput))
    · rfl
    · rename_i heq
      have hs := scanLoop_hit_shift heq
      have := hs.2 rfl
      omega
    · split <;> rfl
  | succ n ih =>
    intro l hlen hpre
    rw [Lexer.Scan.eq_def]
    split
    · rename_i heq
      exact absurd heq (scanLoop_ne_oob (fun m hm => hpre m hm l.currentInput))
    · rfl
    · rename_i shift nm t heq
      have hs := scanLoop_hit_shift heq
      have h1 := hs.2 rfl
      refine ih _ ?_ hpre
      simp only [List.length_drop]
      omega
    · split <;> rfl

def c10m : TokenMatcher (Option Nat) := fun _ => ⟨false, 5, none, []⟩

def c10bad : Lexer (Option Nat) :=
  { Input := [97], Matchers := [c10m], currentInput := [97],
    currentToken := none, Error := none }

def c10wm : TokenMatcher (Option Nat) := fun inp => ⟨true, inp.length, some 1, inp⟩

def c10wlex : Lexer (Option Nat) := NewLexerWithMatchers [97] [c10wm]

/-- C10: `Scan` is total only under the shift-bound precondition: the
concrete matcher `c10m` returns `shift = 5` on the one-byte remainder and
`Scan` hits the modelled out-of-bounds slice (`none`); and for every lexer
whose matchers always return a shift no greater than the length of the
byte slice they were given, the out-of-bounds branch is unreachable and
`Scan` returns a value. -/
theorem c10_totality :
    (Lexer.Scan c10bad = none) ∧
    (∀ (α : Type) (l : Lexer α),
      (∀ m ∈ l.Matchers, ∀ inp : List Nat, (m inp).shift ≤ inp.length) →
      (Lexer.Scan l).isSome = true) := by
  constructor
  · rw [Lexer.Scan.eq_def]
    rfl
  · intro α l hpre
    exact scan_isSome_aux l.currentInput.length l (le_refl _) hpre

/-- C10 witness: the totality part instantiated at a lexer whose single
matcher consumes exactly its whole input, plus the concrete panic. -/
theorem c10_witness :
    (Lexer.Scan c10wlex).isSome = true ∧ Lexer.Scan c10bad = none := by
  refine ⟨c10_totality.2 (Option Nat) c10wlex ?_, c10_totality.1⟩
  intro m hm inp
  simp only [c10wlex, newWith_eq, List.mem_singleton] at hm
  subst hm
  exact le_refl _

/-- Ghost-instrumented record of one `Scan` call, for stating the resource
and reconstruction properties: `spans` lists the consumed spans in order
(each pure skip contributes the bytes it consumed, a final token contributes
the matcher-reported token text), `skips` counts the pure-skip rounds of the
scan-step algorithm, `calls` counts matcher invocations, and `ret`/`post`
are the value and state `Scan` itself produces (`scanInstr_agrees`). -/
structure ScanTrace (α : Type) where
  spans : List (List Nat)
  skips : Nat
  calls : Nat
  ret : Bool
  post : Lexer α

/-- Instrumented variant of `Lexer.Scan`, recursion for recursion: it adds
only ghost data (spans, skip and call counts) and is proved to agree with
`Lexer.Scan` in `scanInstr_agrees`. -/
def Lexer.ScanInstr {α : Type} (l : Lexer α) : Option (ScanTrace α) :=
  match h : scanLoop l.currentInput l.Matchers with
  | LoopRes.oob => none
  | LoopRes.hit true shift name text =>
      some { spans := [text], skips := 0,
             calls := scanCalls l.currentInput l.Matchers, ret := true,
             post := { l with currentInput := l.currentInput.drop shift,
                              currentToken := some (NewToken name text) } }
  | LoopRes.hit false shift _ _ =>
      match Lexer.ScanInstr { l with currentInput := l.currentInput.drop shift,
                                     currentToken := none } with
      | none => none
      | some tr =>
          some { spans := l.currentInput.take shift :: tr.spans,
                 skips := tr.skips + 1,
                 calls := scanCalls l.currentInput l.Matchers + tr.calls,
                 ret := tr.ret, post := tr.post }
  | LoopRes.miss =>
      if l.currentInput = [] then
        some { spans := [], skips := 0,
               calls := scanCalls l.currentInput l.Matchers, ret := false,
               post := { l with currentToken := none } }
      else
        some { spans := [], skips := 0,
               calls := scanCalls l.currentInput l.Matchers, ret := false,
               post := { l with currentToken := none,
                                Error := some (GoError.noMatch l.currentInput) } }
termination_by l.currentInput.length
decreasing_by
  have hs := scanLoop_hit_shift h
  have h1 := hs.2 rfl
  simp only [List.length_drop]
  omega

/-- Unfolding `ScanInstr` when the loop emits a token. -/
theorem scanInstr_tok_eq {α : Type} {l : Lexer α} {shift : Nat} {nm : α} {t : List Nat}
    (h : scanLoop l.currentInput l.Matchers = LoopRes.hit true shift nm t) :
    Lexer.ScanInstr l =
      some { spans := [t], skips := 0,
             calls := scanCalls l.currentInput l.Matchers, ret := true,
             post := { l with currentInput := l.currentInput.drop shift,
                              currentToken := some (NewToken nm t) } } := by
  rw [Lexer.ScanInstr.eq_def]
  split
  · rename_i heq; rw [h] at heq; cases heq
  · rename_i s n tx heq
    rw [h] at heq
    simp only [LoopRes.hit.injEq] at heq
    obtain ⟨-, h2, h3, h4⟩ := heq
    rw [h2, h3, h4]
  · rename_i s n tx heq; rw [h] at heq; simp at heq
  · rename_i heq; rw [h] at heq; cases heq

/-- Unfolding `ScanInstr` when the loop reports a pure skip. -/
theorem scanInstr_skip_eq {α : Type} {l : Lexer α} {shift : Nat} {nm : α} {t : List Nat}
    (h : scanLoop l.currentInput l.Matchers = LoopRes.hit false shift nm t) :
    Lexer.ScanInstr l =
      (match Lexer.ScanInstr { l with currentInput := l.currentInput.drop shift,
                                      currentToken := none } with
       | none => none
       | some tr =>
           some { spans := l.currentInput.take shift :: tr.spans,
                  skips := tr.skips + 1,
                  calls := scanCalls l.currentInput l.Matchers + tr.calls,
                  ret := tr.ret, post := tr.post }) := by
  rw [Lexer.ScanInstr.eq_def]
  split
  · rename_i heq; rw [h] at heq; cases heq
  · rename_i s n tx heq; rw [h] at heq; simp at heq
  · rename_i s n tx heq
    rw [h] at heq
    simp only [LoopRes.hit.injEq] at heq
    obtain ⟨-, h2, -, -⟩ := heq
    rw [h2]
  · rename_i heq; rw [h] at heq; cases heq

/-- Unfolding `ScanInstr` when no matcher applies. -/
theorem scanInstr_miss_eq {α : Type} {l : Lexer α}
    (h : scanLoop l.currentInput l.Matchers = LoopRes.miss) :
    Lexer.ScanInstr l =
      (if l.currentInput = [] then
        some { spans := [], skips := 0,
               calls := scanCalls l.currentInput l.Matchers, ret := false,
               post := { l with currentToken := none } }
      else
        some { spans := [], skips := 0,
               calls := scanCalls l.currentInput l.Matchers, ret := false,
               post := { l with currentToken := none,
                                Error := some (GoError.noMatch l.currentInput) } }) := by
  rw [Lexer.ScanInstr.eq_def]
  split
  · rename_i heq; rw [h] at heq; cases heq
  · rename_i heq; rw [h] at heq; cases heq
  · rename_i heq; rw [h] at heq; cases heq
  · rfl

/-- Unfolding `ScanInstr` at the modelled slice-bounds panic. -/
theorem scanInstr_oob_eq {α : Type} {l : Lexer α}
    (h : scanLoop l.currentInput l.Matchers = LoopRes.oob) :
    Lexer.ScanInstr l = none := by
  rw [Lexer.ScanInstr.eq_def]
  split
  · rfl
  · rename_i heq; rw [h] at heq; cases heq
  · rename_i heq; rw [h] at heq; cases heq
  · rename_i heq; rw [h] at heq; cases heq

/-- `Scan` is the ghost-erased `ScanInstr`. -/
theorem scanInstr_agrees {α : Type} :
    ∀ (n : Nat) (l : Lexer α), l.currentInput.length ≤ n →
      Lexer.Scan l = (Lexer.ScanInstr l).map (fun tr => (tr.ret, tr.post)) := by
  intro n
  induction n with
  | zero =>
    intro l hlen
    cases hloop : scanLoop l.currentInput l.Matchers with
    | oob => rw [scan_oob_eq hloop, scanInstr_oob_eq hloop]; rfl
    | hit b shift nm t =>
      cases b with
      | true => rw [scan_tok_eq hloop, scanInstr_tok_eq hloop]; rfl
      | false =>
        have hs := scanLoop_hit_shift hloop
        have := hs.2 rfl
        omega
    | miss =>
      rw [scan_miss_eq hloop, scanInstr_miss_eq hloop]
      by_cases hemp : l.currentInput = [] <;> simp [hemp]
  | succ n ih =>
    intro l hlen
    cases hloop : scanLoop l.currentInput l.Matchers with
    | oob => rw [scan_oob_eq hloop, scanInstr_oob_eq hloop]; rfl
    | hit b shift nm t =>
      cases b with
      | true => rw [scan_tok_eq hloop, scanInstr_tok_eq hloop]; rfl
      | false =>
        have hs := scanLoop_hit_shift hloop
        have h1 := hs.2 rfl
        rw [scan_skip_eq hloop, scanInstr_skip_eq hloop]
        have hlen' :
            ({ l with currentInput := l.currentInput.drop shift,
                      currentToken := none } : Lexer α).currentInput.length ≤ n := by
          simp only [List.length_drop]
          omega
        rw [ih _ hlen']
        cases hI : Lexer.ScanInstr
            { l with currentInput := l.currentInput.drop shift,
                     currentToken := none } with
        | none => rfl
        | some tr => rfl
    | miss =>
      rw [scan_miss_eq hloop, scanInstr_miss_eq hloop]
      by_cases hemp : l.currentInput = [] <;> simp [hemp]

/-- The loop invokes at most the whole matcher list. -/
theorem scanCalls_le {α : Type} (inp : List Nat) (ms : List (TokenMatcher α)) :
    scanCalls inp ms ≤ ms.length := by
  induction ms with
  | nil => exact le_refl _
  | cons fn rest ih =>
    simp only [scanCalls, List.length_cons]
    split
    · omega
    · omega

/-- Matcher invocations of one `Scan` call are bounded by the matcher-list
length times the number of rounds of the scan-step algorithm (the pure-skip
rounds plus the deciding one). -/
theorem scanInstr_calls {α : Type} :
    ∀ (n : Nat) (l : Lexer α), l.currentInput.length ≤ n →
      ∀ tr, Lexer.ScanInstr l = some tr →
        tr.calls ≤ l.Matchers.length * (tr.skips + 1) := by
  intro n
  induction n with
  | zero =>
    intro l hlen tr htr
    cases hloop : scanLoop l.currentInput l.Matchers with
    | oob => rw [scanInstr_oob_eq hloop] at htr; cases htr
    | hit b shift nm t =>
      cases b with
      | true =>
        rw [scanInstr_tok_eq hloop] at htr
        simp only [Option.some.injEq] at htr
        subst htr
        simpa using scanCalls_le l.currentInput l.Matchers
      | false =>
        have hs := scanLoop_hit_shift hloop
        have := hs.2 rfl
        omega
    | miss =>
      rw [scanInstr_miss_eq hloop] at htr
      by_cases hemp : l.currentInput = [] <;>
        [rw [if_pos hemp] at htr; rw [if_neg hemp] at htr] <;>
        · simp only [Option.some.injEq] at htr
          subst htr
          simpa using scanCalls_le l.currentInput l.Matchers
  | succ n ih =>
    intro l hlen tr htr
    cases hloop : scanLoop l.currentInput l.Matchers with
    | oob => rw [scanInstr_oob_eq hloop] at htr; cases htr
    | hit b shift nm t =>
      cases b with
      | true =>
        rw [scanInstr_tok_eq hloop] at htr
        simp only [Option.some.injEq] at htr
        subst htr
        simpa using scanCalls_le l.currentInput l.Matchers
      | false =>
        have hs := scanLoop_hit_shift hloop
        have h1 := hs.2 rfl
        rw [scanInstr_skip_eq hloop] at htr
        have hlen' :
            ({ l with currentInput := l.currentInput.drop shift,
                      currentToken := none } : Lexer α).currentInput.length ≤ n := by
          simp only [List.length_drop]
          omega
        cases hI : Lexer.ScanInstr
            { l with currentInput := l.currentInput.drop shift,
                     currentToken := none } with
        | none => rw [hI] at htr; cases htr
        | some tr' =>
          rw [hI] at htr
          simp only [Option.some.injEq] at htr
          subst htr
          have hrec := ih _ hlen' tr' hI
          have hc := scanCalls_le l.currentInput l.Matchers
          dsimp only at hrec ⊢
          have hmul : l.Matchers.length * (tr'.skips + 1 + 1) =
              l.Matchers.length * (tr'.skips + 1) + l.Matchers.length := by ring
          omega
    | miss =>
      rw [scanInstr_miss_eq hloop] at htr
      by_cases hemp : l.currentInput = [] <;>
        [rw [if_pos hemp] at htr; rw [if_neg hemp] at htr] <;>
        · simp only [Option.some.injEq] at htr
          subst htr
          simpa using scanCalls_le l.currentInput l.Matchers

/-- Under the token-text convention (a matching matcher's `tokenText` equals
the first `shift` bytes of the input it was given), the spans one `Scan`
call consumes concatenate, with the unconsumed rest, back to the input the
call started from. -/
theorem scanInstr_join {α : Type} :
    ∀ (n : Nat) (l : Lexer α), l.currentInput.length ≤ n →
      (∀ m ∈ l.Matchers, ∀ inp : List Nat,
          (m inp).matched = true → (m inp).text = inp.take (m inp).shift) →
      ∀ tr, Lexer.ScanInstr l = some tr →
        tr.spans.flatten ++ tr.post.currentInput = l.currentInput := by
  intro n
  induction n with
  | zero =>
    intro l hlen hconv tr htr
    cases hloop : scanLoop l.currentInput l.Matchers with
    | oob => rw [scanInstr_oob_eq hloop] at htr; cases htr
    | hit b shift nm t =>
      cases b with
      | true =>
        rw [scanInstr_tok_eq hloop] at htr
        simp only [Option.some.injEq] at htr
        subst htr
        obtain ⟨m, hm, hmr⟩ := scanLoop_hit_exists hloop
        have hconv' := hconv m hm l.currentInput
        rw [hmr] at hconv'
        have ht : t = l.currentInput.take shift := hconv' rfl
        dsimp only
        rw [List.flatten_cons, List.flatten_nil, List.append_nil, ht, List.take_append_drop]
      | false =>
        have hs := scanLoop_hit_shift hloop
        have := hs.2 rfl
        omega
    | miss =>
      rw [scanInstr_miss_eq hloop] at htr
      by_cases hemp : l.currentInput = [] <;>
        [rw [if_pos hemp] at htr; rw [if_neg hemp] at htr] <;>
        · simp only [Option.some.injEq] at htr
          subst htr
          simp
  | succ n ih =>
    intro l hlen hconv tr htr
    cases hloop : scanLoop l.currentInput l.Matchers with
    | oob => rw [scanInstr_oob_eq hloop] at htr; cases htr
    | hit b shift nm t =>
      cases b with
      | true =>
        rw [scanInstr_tok_eq hloop] at htr
        simp only [Option.some.injEq] at htr
        subst htr
        obtain ⟨m, hm, hmr⟩ := scanLoop_hit_exists hloop
        have hconv' := hconv m hm l.currentInput
        rw [hmr] at hconv'
        have ht : t = l.currentInput.take shift := hconv' rfl
        dsimp only
        rw [List.flatten_cons, List.flatten_nil, List.append_nil, ht, List.take_append_drop]
      | false =>
        have hs := scanLoop_hit_shift hloop
        have h1 := hs.2 rfl
        rw [scanInstr_skip_eq hloop] at htr
        have hlen' :
            ({ l with currentInput := l.currentInput.drop shift,
                      currentToken := none } : Lexer α).currentInput.length ≤ n := by
          simp only [List.length_drop]
          omega
        cases hI : Lexer.ScanInstr
            { l with currentInput := l.currentInput.drop shift,
                     currentToken := none } with
        | none => rw [hI] at htr; cases htr
        | some tr' =>
          rw [hI] at htr
          simp only [Option.some.injEq] at htr
          subst htr
          have hrec := ih _ hlen' hconv tr' hI
          dsimp only at hrec ⊢
          rw [List.flatten_cons, List.append_assoc, hrec, List.take_append_drop]
    | miss =>
      rw [scanInstr_miss_eq hloop] at htr
      by_cases hemp : l.currentInput = [] <;>
        [rw [if_pos hemp] at htr; rw [if_neg hemp] at htr] <;>
        · simp only [Option.some.injEq] at htr
          subst htr
          simp

/-- Under strict consumption by every applicable matcher the instrumented
scan never reaches the out-of-bounds slice. -/
theorem scanInstr_isSome_aux {α : Type} :
    ∀ (n : Nat) (l : Lexer α), l.currentInput.length ≤ n →
      (∀ m ∈ l.Matchers, ∀ inp : List Nat,
          ((m inp).matched = true ∨ 0 < (m inp).shift) → (m inp).shift ≤ inp.length) →
      (Lexer.ScanInstr l).isSome = true := by
  intro n
  induction n with
  | zero =>
    intro l hlen hpre
    cases hloop : scanLoop l.currentInput l.Matchers with
    | oob =>
      have hb : ∀ m ∈ l.Matchers, (m l.currentInput).shift ≤ l.currentInput.length := by
        intro m hm
        by_cases happ : (m l.currentInput).matched = true ∨ 0 < (m l.currentInput).shift
        · exact hpre m hm _ happ
        · push_neg at happ
          omega
      exact absurd hloop (scanLoop_ne_oob hb)
    | hit b shift nm t =>
      cases b with
      | true => rw [scanInstr_tok_eq hloop]; rfl
      | false =>
        have hs := scanLoop_hit_shift hloop
        have := hs.2 rfl
        omega
    | miss =>
      rw [scanInstr_miss_eq hloop]
      by_cases hemp : l.currentInput = [] <;> simp [hemp]
  | succ n ih =>
    intro l hlen hpre
    cases hloop : scanLoop l.currentInput l.Matchers with
    | oob =>
      have hb : ∀ m ∈ l.Matchers, (m l.currentInput).shift ≤ l.currentInput.length := by
        intro m hm
        by_cases happ : (m l.currentInput).matched = true ∨ 0 < (m l.currentInput).shift
        · exact hpre m hm _ happ
        · push_neg at happ
          omega
      exact absurd hloop (scanLoop_ne_oob hb)
    | hit b shift nm t =>
      cases b with
      | true => rw [scanInstr_tok_eq hloop]; rfl
      | false =>
        have hs := scanLoop_hit_shift hloop
        have h1 := hs.2 rfl
        rw [scanInstr_skip_eq hloop]
        have hlen' :
            ({ l with currentInput := l.currentInput.drop shift,
                      currentToken := none } : Lexer α).currentInput.length ≤ n := by
          simp only [List.length_drop]
          omega
        have hrec := ih _ hlen' hpre
        cases hI : Lexer.ScanInstr
            { l with currentInput := l.currentInput.drop shift,
                     currentToken := none } with
        | none => rw [hI] at hrec; cases hrec
        | some tr' => rfl
    | miss =>
      rw [scanInstr_miss_eq hloop]
      by_cases hemp : l.currentInput = [] <;> simp [hemp]

/-- Repeated `Scan` calls until one returns `false`, driven with fuel (a
matcher reporting a zero-width match can make `Scan` return `true` forever,
so the run need not end); all consumed spans are collected through
`ScanInstr`. -/
def driveInstr {α : Type} : Nat → Lexer α → Option (List (List Nat) × Lexer α)
  | 0, _ => none
  | fuel + 1, l =>
    match Lexer.ScanInstr l with
    | none => none
    | some tr =>
      if tr.ret then
        match driveInstr fuel tr.post with
        | none => none
        | some (sp, fin) => some (tr.spans ++ sp, fin)
      else some (tr.spans, tr.post)

/-- A finished drive preserves `Input` and the matcher list, consumes a
prefix (its spans concatenate with the final remainder back to the starting
input, under the token-text convention), and ends with either the error slot
untouched and empty input, or a non-empty remainder missed by every matcher
and the `noMatch` error for it. -/
theorem driveInstr_spec {α : Type} :
    ∀ (fuel : Nat) (l : Lexer α),
      (∀ m ∈ l.Matchers, ∀ inp : List Nat,
          (m inp).matched = true → (m inp).text = inp.take (m inp).shift) →
      ∀ sp fin, driveInstr fuel l = some (sp, fin) →
        fin.Matchers = l.Matchers ∧ fin.Input = l.Input ∧
        sp.flatten ++ fin.currentInput = l.currentInput ∧
        fin.currentInput <:+ l.currentInput ∧
        ((fin.currentInput = [] ∧ fin.Error = l.Error) ∨
         (fin.currentInput ≠ [] ∧
          scanLoop fin.currentInput l.Matchers = LoopRes.miss ∧
          fin.Error = some (GoError.noMatch fin.currentInput))) := by
  intro fuel
  induction fuel with
  | zero =>
    intro l hconv sp fin h
    simp [driveInstr] at h
  | succ fuel ih =>
    intro l hconv sp fin h
    rw [driveInstr] at h
    cases hI : Lexer.ScanInstr l with
    | none => rw [hI] at h; cases h
    | some tr =>
      rw [hI] at h
      dsimp only at h
      have hagree : Lexer.Scan l = some (tr.ret, tr.post) := by
        rw [scanInstr_agrees l.currentInput.length l (le_refl _), hI]
        rfl
      obtain ⟨hm, hinp, hsuf, htrue, hfalse⟩ :=
        scan_some_spec l.currentInput.length l (le_refl _) tr.ret tr.post hagree
      have hjoin := scanInstr_join l.currentInput.length l (le_refl _) hconv tr hI
      cases hret : tr.ret with
      | true =>
        rw [hret, if_pos rfl] at h
        cases hD : driveInstr fuel tr.post with
        | none => rw [hD] at h; cases h
        | some p =>
          obtain ⟨sp', fin'⟩ := p
          rw [hD] at h
          simp only [Option.some.injEq, Prod.mk.injEq] at h
          obtain ⟨hsp, hfin⟩ := h
          subst hsp
          subst hfin
          have hconv' : ∀ m ∈ tr.post.Matchers, ∀ inp : List Nat,
              (m inp).matched = true → (m inp).text = inp.take (m inp).shift := by
            rw [hm]
            exact hconv
          obtain ⟨dm, di, djoin, dsuf, ddisj⟩ := ih tr.post hconv' _ _ hD
          have herr : tr.post.Error = l.Error := (htrue hret).1
          refine ⟨dm.trans hm, di.trans hinp, ?_, dsuf.trans hsuf, ?_⟩
          · rw [List.flatten_append, List.append_assoc, djoin, hjoin]
          · rcases ddisj with ⟨he, hE⟩ | ⟨hne, hmiss, hE⟩
            · exact Or.inl ⟨he, hE.trans herr⟩
            · refine Or.inr ⟨hne, ?_, hE⟩
              rw [← hm]
              exact hmiss
      | false =>
        rw [hret, if_neg (by simp)] at h
        simp only [Option.some.injEq, Prod.mk.injEq] at h
        obtain ⟨hsp, hfin⟩ := h
        subst hsp
        subst hfin
        obtain ⟨-, hdisj⟩ := hfalse hret
        refine ⟨hm, hinp, hjoin, hsuf, ?_⟩
        rcases hdisj with ⟨he, hE⟩ | ⟨hne, hmiss, hE⟩
        · exact Or.inl ⟨he, hE⟩
        · exact Or.inr ⟨hne, hmiss, hE⟩

/-- C1: for every input and matcher list that fully covers the input (no
non-empty suffix of the input is missed by every matcher) and whose matchers
obey the token-text convention (`tokenText` equals the first `shift` bytes of
the input passed in), a run of repeated `Scan` calls that ends (some call
returned `false` within the fuel) ends in the Exhausted state — empty
remaining input and no error — and the consumed spans, emitted token texts
together with skipped spans in order, concatenate to exactly the original
input bytes. -/
theorem c1_reconstruction {α : Type} (text : List Nat) (ms : List (TokenMatcher α))
    (fuel : Nat) (spans : List (List Nat)) (fin : Lexer α)
    (hconv : ∀ m ∈ ms, ∀ inp : List Nat,
        (m inp).matched = true → (m inp).text = inp.take (m inp).shift)
    (hcover : ∀ s : List Nat, s <:+ text → s ≠ [] → scanLoop s ms ≠ LoopRes.miss)
    (hdrive : driveInstr fuel (NewLexerWithMatchers text ms) = some (spans, fin)) :
    fin.currentInput = [] ∧ fin.Error = none ∧ spans.flatten = text := by
  rw [newWith_eq] at hdrive
  obtain ⟨dm, di, djoin, dsuf, ddisj⟩ := driveInstr_spec fuel _ hconv spans fin hdrive
  have hempty : fin.currentInput = [] := by
    rcases ddisj with ⟨he, -⟩ | ⟨hne, hmiss, -⟩
    · exact he
    · exact absurd hmiss (hcover fin.currentInput dsuf hne)
  refine ⟨hempty, ?_, ?_⟩
  · rcases ddisj with ⟨-, herr⟩ | ⟨hne, -, -⟩
    · exact herr
    · exact absurd hempty hne
  · rw [hempty, List.append_nil] at djoin
    exact djoin

def c1m1 : TokenMatcher (Option Nat) := fun i =>
  if i.take 1 = [97] then ⟨true, 1, some 1, [97]⟩ else ⟨false, 0, none, []⟩

def c1m2 : TokenMatcher (Option Nat) := fun i =>
  if i.take 1 = [98] then ⟨false, 1, none, []⟩ else ⟨false, 0, none, []⟩

def c1fin : Lexer (Option Nat) :=
  { Input := [97, 98], Matchers := [c1m1, c1m2], currentInput := [],
    currentToken := none, Error := none }

/-- C1 witness: input `[97, 98]`, a tokenizer for byte 97 and a skipper for
byte 98; the drive ends exhausted with no error, and the token text `[97]`
together with the skipped span `[98]` reconstructs the input. -/
theorem c1_witness :
    driveInstr 3 (NewLexerWithMatchers [97, 98] [c1m1, c1m2]) =
      some ([[97], [98]], c1fin) ∧
    c1fin.currentInput = [] ∧ c1fin.Error = none ∧
    ([[97], [98]] : List (List Nat)).flatten = [97, 98] := by
  have hdrive : driveInstr 3 (NewLexerWithMatchers [97, 98] [c1m1, c1m2]) =
      some ([[97], [98]], c1fin) := by
    rw [newWith_eq]
    simp [driveInstr, Lexer.ScanInstr, scanLoop, scanCalls, c1m1, c1m2, NewToken, c1fin]
  have hconv : ∀ m ∈ [c1m1, c1m2], ∀ inp : List Nat,
      (m inp).matched = true → (m inp).text = inp.take (m inp).shift := by
    intro m hm inp hmt
    simp only [List.mem_cons, List.not_mem_nil, or_false] at hm
    rcases hm with hm | hm
    · subst hm
      by_cases hc : inp.take 1 = [97]
      · simp only [c1m1, if_pos hc]
        exact hc.symm
      · simp [c1m1, hc] at hmt
    · subst hm
      by_cases hc : inp.take 1 = [98]
      · simp [c1m2, hc] at hmt
      · simp [c1m2, hc] at hmt
  have hcover : ∀ s : List Nat, s <:+ [97, 98] → s ≠ [] →
      scanLoop s [c1m1, c1m2] ≠ LoopRes.miss := by
    intro s hs hne
    have hmem : s ∈ ([97, 98] : List Nat).tails := (List.mem_tails s [97, 98]).mpr hs
    have htails : ([97, 98] : List Nat).tails = [[97, 98], [98], []] := by decide
    rw [htails] at hmem
    simp only [List.mem_cons, List.not_mem_nil, or_false] at hmem
    rcases hmem with hm | hm | hm
    · subst hm; decide
    · subst hm; decide
    · subst hm; exact absurd rfl hne
  exact ⟨hdrive, c1_reconstruction [97, 98] [c1m1, c1m2] 3 [[97], [98]] c1fin
    hconv hcover hdrive⟩

/-- C5: when the first applicable matcher reports a pure skip
(`shift > 0`, `matched = false`), `Scan` continues scanning from the
advanced cursor within the same external call; and under the precondition
that every applicable matcher strictly consumes input
(`1 ≤ shift ≤ remaining length`), the call completes without reaching the
out-of-bounds slice, agrees with `Scan`, and makes at most
(number of matchers) × (number of scan-step rounds, i.e. pure-skip rounds
plus the deciding one) matcher invocations. -/
theorem c5_skip_transparent_bounded {α : Type} (l : Lexer α) :
    (∀ (shift : Nat) (nm : α) (t : List Nat),
        scanLoop l.currentInput l.Matchers = LoopRes.hit false shift nm t →
        Lexer.Scan l =
          Lexer.Scan { l with currentInput := l.currentInput.drop shift,
                              currentToken := none }) ∧
    ((∀ m ∈ l.Matchers, ∀ inp : List Nat,
        ((m inp).matched = true ∨ 0 < (m inp).shift) →
        1 ≤ (m inp).shift ∧ (m inp).shift ≤ inp.length) →
      ∃ tr, Lexer.ScanInstr l = some tr ∧
        Lexer.Scan l = some (tr.ret, tr.post) ∧
        tr.calls ≤ l.Matchers.length * (tr.skips + 1)) := by
  constructor
  · intro shift nm t h
    exact scan_skip_eq h
  · intro hpre
    have hpre' : ∀ m ∈ l.Matchers, ∀ inp : List Nat,
        ((m inp).matched = true ∨ 0 < (m inp).shift) → (m inp).shift ≤ inp.length :=
      fun m hm inp happ => (hpre m hm inp happ).2
    have hsome := scanInstr_isSome_aux l.currentInput.length l (le_refl _) hpre'
    cases hI : Lexer.ScanInstr l with
    | none => rw [hI] at hsome; cases hsome
    | some tr =>
      refine ⟨tr, rfl, ?_, scanInstr_calls l.currentInput.length l (le_refl _) tr hI⟩
      rw [scanInstr_agrees l.currentInput.length l (le_refl _), hI]
      rfl

def c5m1 : TokenMatcher (Option Nat) := fun i =>
  if i.take 1 = [98] then ⟨false, 1, none, []⟩ else ⟨false, 0, none, []⟩

def c5m2 : TokenMatcher (Option Nat) := fun i =>
  if i.take 1 = [97] then ⟨true, 1, some 1, [97]⟩ else ⟨false, 0, none, []⟩

def c5lex : Lexer (Option Nat) := NewLexerWithMatchers [98, 97] [c5m1, c5m2]

def c5tr : ScanTrace (Option Nat) :=
  { spans := [[98], [97]], skips := 1, calls := 3, ret := true,
    post := { Input := [98, 97], Matchers := [c5m1, c5m2], currentInput := [],
              currentToken := some { Name := some 1, Text := [97] }, Error := none } }

/-- C5 witness: on `[98, 97]` the skipper consumes `[98]` and the call goes
on within itself to emit the `[97]` token; it makes 3 matcher invocations,
within the bound 2 matchers × (1 skip round + 1). -/
theorem c5_witness :
    Lexer.Scan c5lex =
      Lexer.Scan { c5lex with currentInput := c5lex.currentInput.drop 1,
                              currentToken := none } ∧
    Lexer.ScanInstr c5lex = some c5tr ∧
    c5tr.calls ≤ c5lex.Matchers.length * (c5tr.skips + 1) := by
  have hpre : ∀ m ∈ c5lex.Matchers, ∀ inp : List Nat,
      ((m inp).matched = true ∨ 0 < (m inp).shift) →
      1 ≤ (m inp).shift ∧ (m inp).shift ≤ inp.length := by
    intro m hm inp happ
    have hm' : m = c5m1 ∨ m = c5m2 := by
      simpa [c5lex, newWith_eq] using hm
    rcases hm' with hm' | hm' <;> subst hm'
    · by_cases hc : inp.take 1 = [98]
      · refine ⟨by simp [c5m1, hc], ?_⟩
        cases inp with
        | nil => simp at hc
        | cons a t => simp [c5m1, hc]
      · simp [c5m1, hc] at happ
    · by_cases hc : inp.take 1 = [97]
      · refine ⟨by simp [c5m2, hc], ?_⟩
        cases inp with
        | nil => simp at hc
        | cons a t => simp [c5m2, hc]
      · simp [c5m2, hc] at happ
  obtain ⟨tr, htr, hagr, hcalls⟩ := (c5_skip_transparent_bounded c5lex).2 hpre
  have heval : Lexer.ScanInstr c5lex = some c5tr := by
    simp only [c5lex]
    rw [newWith_eq]
    simp [Lexer.ScanInstr, scanLoop, scanCalls, c5m1, c5m2, NewToken, c5tr]
  refine ⟨(c5_skip_transparent_bounded c5lex).1 1 none [] rfl, heval, ?_⟩
  injection htr.symm.trans heval with he
  rw [← he]
  exact hcalls

/-- Modelled from the spec (out-of-scope external collaborator, §1 and
§4.1): the pattern-matching engine behind
`regexp.MustCompile(pattern).Find(input)` — a function from the pattern and
the input bytes to the leftmost match, `none` when nothing matches.  The
spec's anchoring semantics ("a pattern asserting start of input matches
only at the very start") enters `c8_anchoring` as the hypothesis `hanch`. -/
def RegexFind : Type := String → List Nat → Option (List Nat)

/-- Go `normalizePattern` (lines 106-111): `regexp.MatchString` of the fixed
valid pattern `^\^` against `pattern` succeeds exactly when `pattern` starts
with the caret character and never returns an error, so the test is modelled
as a first-character check; when it fails, `"^"` is prepended. -/
def normalizePattern (pattern : String) : String :=
  if pattern.data.head? = some '^' then pattern else "^" ++ pattern

/-- Go `SkipIfMatches` (lines 116-125): on a match of the normalized
pattern, consume the match's length and emit nothing. -/
def SkipIfMatches (σ : Type) (find : RegexFind) (pattern : String) :
    TokenMatcher (Option σ) :=
  fun input =>
    match find (normalizePattern pattern) input with
    | none => ⟨false, 0, none, []⟩
    | some m => ⟨false, m.length, none, []⟩

/-- Go `TokenizeIfMatches` (lines 138-147): on a match of the normalized
pattern, report `matched`, consume the match's length and carry the given
name and the matched bytes. -/
def TokenizeIfMatches (σ : Type) (find : RegexFind) (pattern : String)
    (tokenName : Option σ) : TokenMatcher (Option σ) :=
  fun input =>
    match find (normalizePattern pattern) input with
    | none => ⟨false, 0, none, []⟩
    | some m => ⟨true, m.length, tokenName, m⟩

/-- A prefix is recovered by `take` of its length. -/
theorem take_len_app {γ : Type} (a b : List γ) : (a ++ b).take a.length = a := by
  simp

/-- C8: both constructors anchor the pattern: the normalized pattern always
asserts start of input — `'^'` is prepended exactly when absent, and an
already-anchored pattern is kept as is — and (for any engine in which a
`'^'`-led pattern only ever matches a prefix of the input) the built
matchers recognize and consume only a match located at the very start of
the remaining input: the consumed bytes `take shift input` are exactly the
reported match. -/
theorem c8_anchoring (σ : Type) (find : RegexFind) (p : String)
    (hanch : ∀ (q : String) (inp m : List Nat),
        q.data.head? = some '^' → find q inp = some m → m <+: inp) :
    (normalizePattern p).data.head? = some '^' ∧
    (¬ p.data.head? = some '^' → normalizePattern p = "^" ++ p) ∧
    (p.data.head? = some '^' → normalizePattern p = p) ∧
    (∀ inp : List Nat,
      ((SkipIfMatches σ find p) inp).matched = false ∧
      (0 < ((SkipIfMatches σ find p) inp).shift →
        ∃ m, find (normalizePattern p) inp = some m ∧ m <+: inp ∧
          ((SkipIfMatches σ find p) inp).shift = m.length ∧
          inp.take m.length = m)) ∧
    (∀ (nm : Option σ) (inp : List Nat),
      ((TokenizeIfMatches σ find p nm) inp).matched = true →
        ∃ m, find (normalizePattern p) inp = some m ∧ m <+: inp ∧
          ((TokenizeIfMatches σ find p nm) inp).shift = m.length ∧
          ((TokenizeIfMatches σ find p nm) inp).text = m ∧
          inp.take m.length = m) := by
  have h0 : (normalizePattern p).data.head? = some '^' := by
    by_cases hp : p.data.head? = some '^'
    · rw [normalizePattern, if_pos hp]
      exact hp
    · rw [normalizePattern, if_neg hp]
      rfl
  refine ⟨h0, fun hp => by rw [normalizePattern, if_neg hp],
    fun hp => by rw [normalizePattern, if_pos hp], ?_, ?_⟩
  · intro inp
    cases hf : find (normalizePattern p) inp with
    | none =>
      constructor
      · simp [SkipIfMatches, hf]
      · intro hs
        simp [SkipIfMatches, hf] at hs
    | some m =>
      constructor
      · simp [SkipIfMatches, hf]
      · intro hs
        have hpref := hanch _ inp m h0 hf
        obtain ⟨t, ht⟩ := hpref
        refine ⟨m, rfl, ⟨t, ht⟩, by simp [SkipIfMatches, hf], ?_⟩
        rw [← ht]
        exact take_len_app m t
  · intro nm inp hmt
    cases hf : find (normalizePattern p) inp with
    | none => simp [TokenizeIfMatches, hf] at hmt
    | some m =>
      have hpref := hanch _ inp m h0 hf
      obtain ⟨t, ht⟩ := hpref
      refine ⟨m, rfl, ⟨t, ht⟩, by simp [TokenizeIfMatches, hf],
        by simp [TokenizeIfMatches, hf], ?_⟩
      rw [← ht]
      exact take_len_app m t

def c8find : RegexFind := fun q inp =>
  if q = "^a" then (if inp.take 1 = [97] then some [97] else none) else none

/-- C8 witness: the engine `c8find` is anchored (its only pattern, `^a`,
matches only the first byte); the theorem instantiates at it with the
unanchored pattern `a`, which is normalized to `^a`, and the tokenizer
recognizes exactly the leading byte of `[97, 98]`. -/
theorem c8_witness :
    (normalizePattern "a").data.head? = some '^' ∧
    ((TokenizeIfMatches Nat c8find "a" (some 5)) [97, 98]).matched = true ∧
    ((TokenizeIfMatches Nat c8find "a" (some 5)) [97, 98]).shift = 1 ∧
    ((TokenizeIfMatches Nat c8find "a" (some 5)) [97, 98]).text = [97] ∧
    ([97, 98] : List Nat).take 1 = [97] := by
  have hanch : ∀ (q : String) (inp m : List Nat),
      q.data.head? = some '^' → c8find q inp = some m → m <+: inp := by
    intro q inp m hq hf
    by_cases h1 : q = "^a"
    · rw [c8find, if_pos h1] at hf
      by_cases h2 : inp.take 1 = [97]
      · rw [if_pos h2] at hf
        injection hf with hf'
        subst hf'
        have ht := List.take_append_drop 1 inp
        rw [h2] at ht
        exact ⟨inp.drop 1, ht⟩
      · rw [if_neg h2] at hf
        cases hf
    · rw [c8find, if_neg h1] at hf
      cases hf
  have hc := c8_anchoring Nat c8find "a" hanch
  exact ⟨hc.1, rfl, rfl, rfl, rfl⟩

end LexGo
